import Mathlib

/-!
Verification of the `resource-pool` library of this repository.

The shallow embedding below follows `src/resource-pool/src/pool.ts`,
`src/resource-pool/src/retry.ts`, `src/resource-pool/src/factory.ts`,
`src/resource-pool/src/errors.ts` and
`src/resource-pool/src/administration.ts`.  The
stateful TypeScript functions are modelled as explicit state-passing
functions; the asynchronous create/destroy callbacks are modelled by
passing their (already settled) results as parameters, with the
synchronous part of `acquire` (everything before the `create()` call)
split into its own function so that "the create operation was never
invoked" is expressible.
-/

namespace ResourcePool

/-- The error taxonomy of the pool, following `errors.ts`.
`ε` is the type of errors produced by the external create/destroy
callbacks; such errors enter the pool's failure channel via the
`creation` constructor and are never reclassified. -/
inductive PoolError (ε : Type) where
  /-- `ResourcePoolFullError` -/
  | poolFull
  /-- `ResourceNotPartOfPoolError` -/
  | notPartOfPool
  /-- `NoMoreRetriesLeftError(attemptCount, lastError)` -/
  | noMoreRetriesLeft (attemptCount : Nat) (lastError : PoolError ε)
  /-- an error coming from the external create operation, propagated verbatim -/
  | creation (e : ε)
deriving DecidableEq, Repr

/-- `isResourcePoolFullError` of `errors.ts` (the `instanceof` check used by
the retry logic). -/
def isResourcePoolFullError {ε : Type} : PoolError ε → Bool
  | .poolFull => true
  | _ => false

/-- One item of `ResourcePoolState#resources`
(`ResourcePoolStateArrayItem<T> = Resource<T> | undefined | null`):
`res r returnedAt` is a `Resource` object (with `returnedAt = none`
meaning currently in use, `some t` meaning idle since timestamp `t`),
`reserved` is `undefined` (slot reserved for an in-flight creation), and
`empty` is `null` (a previous creation failed, slot free for reuse). -/
inductive PoolSlot (T : Type) where
  | res (resource : T) (returnedAt : Option Nat)
  | reserved
  | empty
deriving DecidableEq, Repr

/-- `r !== null`, i.e. the slot counts towards the current resource count. -/
def slotIsLive {T : Type} : PoolSlot T → Bool
  | .empty => false
  | _ => true

/-- `r === null` -/
def slotIsEmpty {T : Type} : PoolSlot T → Bool
  | .empty => true
  | _ => false

/-- The internal pool state (`state.ts` / `ResourcePoolState<T>`). -/
structure ResourcePoolState (T : Type) where
  resources : List (PoolSlot T)
  minCount : Nat
  maxCount : Option Nat
  equality : T → T → Bool

/-- `getCurrentResourceCount` of `pool.ts`: the number of non-`null`
array items. -/
def getCurrentResourceCount {T : Type} (array : List (PoolSlot T)) : Nat :=
  array.countP slotIsLive

/-- `isRoomForResource` of `pool.ts`. -/
def isRoomForResource {T : Type} (maxCount : Option Nat)
    (array : List (PoolSlot T)) : Bool :=
  match maxCount with
  | none => true
  | some m =>
      decide (array.length < m) || decide (getCurrentResourceCount array < m)

/-- The `A.findFirstMap` call of `createAcquire`: the first slot holding an
idle resource (`r && r.returnedAt !== undefined`), returned together with
its index (the TypeScript code mutates the found `Resource` object through
its reference; the explicit index plays that role here). -/
def findFirstIdle {T : Type} : List (PoolSlot T) → Option (Nat × T)
  | [] => none
  | .res r (some _) :: _ => some (0, r)
  | _ :: rest => (findFirstIdle rest).map (fun p => (p.1 + 1, p.2))

/-- The `RA.findIndex` pattern of `createAcquire`/`createRelease`: index of
the first slot satisfying `p`. -/
def findFirstIndex {T : Type} (p : PoolSlot T → Bool) :
    List (PoolSlot T) → Option Nat
  | [] => none
  | s :: rest =>
      if p s then some 0 else (findFirstIndex p rest).map (· + 1)

/-- The `A.findFirstMap` call of `createRelease`: the first slot holding an
in-use resource equal to `x` under the configured equality
(`r && r.returnedAt === undefined && state.equality(r.resource, resource)`),
with its index and stored resource. -/
def findFirstInUse {T : Type} (eqf : T → T → Bool) (x : T) :
    List (PoolSlot T) → Option (Nat × T)
  | [] => none
  | .res r none :: rest =>
      if eqf r x then some (0, r)
      else (findFirstInUse eqf x rest).map (fun p => (p.1 + 1, p.2))
  | _ :: rest => (findFirstInUse eqf x rest).map (fun p => (p.1 + 1, p.2))

/-- `state.resources[idx] = x` of the TypeScript code: writing at an index
that is in range overwrites, writing at index `length` appends (the only
out-of-range index the code ever uses). -/
def writeSlot {T : Type} (l : List (PoolSlot T)) (idx : Nat)
    (x : PoolSlot T) : List (PoolSlot T) :=
  if idx < l.length then l.set idx x else l ++ [x]

/-- Result of the synchronous part of `createAcquire` (everything up to and
including the slot reservation, before `create()` is invoked). -/
inductive AcquireSync (T ε : Type) where
  /-- the call finishes without ever invoking `create`; carries the new
  state and the result -/
  | immediate (newState : ResourcePoolState T)
      (result : Except (PoolError ε) T)
  /-- a slot was reserved at `idx`; `create` is invoked next -/
  | needsCreate (reservedState : ResourcePoolState T) (idx : Nat)

/-- The synchronous prefix of `createAcquire` of `pool.ts`:
1. first idle slot, if any, is marked in use (`returnedAt = undefined`)
   and its resource returned;
2. otherwise, if there is no room, fail with `ResourcePoolFullError`;
3. otherwise reserve the first `null` index (else append) by writing
   `undefined` there, before the asynchronous creation starts. -/
def acquireSync {T ε : Type} (s : ResourcePoolState T) : AcquireSync T ε :=
  match findFirstIdle s.resources with
  | some (i, r) =>
      .immediate { s with resources := s.resources.set i (.res r none) }
        (.ok r)
  | none =>
      if isRoomForResource s.maxCount s.resources then
        let idx := (findFirstIndex slotIsEmpty s.resources).getD
          s.resources.length
        .needsCreate { s with resources := writeSlot s.resources idx .reserved }
          idx
      else
        .immediate s (.error .poolFull)

/-- The continuation of `createAcquire` after the `create()` call settled
(the `TE.bimap` at the end of `createAcquire`): on success store the
resource as in-use at the reserved index; on failure reset the reserved
slot to `null` and propagate the creation error unchanged. -/
def finishAcquire {T ε : Type} (s : ResourcePoolState T) (idx : Nat)
    (createResult : Except ε T) :
    ResourcePoolState T × Except (PoolError ε) T :=
  match createResult with
  | .ok r => ({ s with resources := writeSlot s.resources idx (.res r none) }, .ok r)
  | .error e => ({ s with resources := writeSlot s.resources idx .empty },
      .error (.creation e))

/-- The observable outcome of one `acquire()` call: the state afterwards,
the returned value or error, and whether the external create operation
was invoked. -/
structure AcquireOutcome (T ε : Type) where
  state : ResourcePoolState T
  result : Except (PoolError ε) T
  createInvoked : Bool

/-- One full `acquire()` call of the pool built by `createAcquire`, with
`createResult` the settled result of the external create operation (used
only when the call reaches the creation step). -/
def acquire {T ε : Type} (s : ResourcePoolState T)
    (createResult : Except ε T) : AcquireOutcome T ε :=
  match acquireSync (ε := ε) s with
  | .immediate s2 r => ⟨s2, r, false⟩
  | .needsCreate s2 idx =>
      let fr := finishAcquire s2 idx createResult
      ⟨fr.1, fr.2, true⟩

/-- One `release(resource)` call of the pool built by `createRelease` of
`pool.ts`: find the first in-use slot whose resource equals the argument,
fail with `ResourceNotPartOfPoolError` when there is none, otherwise stamp
`returnedAt` with the current time (`now`). -/
def release {T ε : Type} (s : ResourcePoolState T) (x : T) (now : Nat) :
    ResourcePoolState T × Except (PoolError ε) Unit :=
  match findFirstInUse s.equality x s.resources with
  | none => (s, .error .notPartOfPool)
  | some (i, r) =>
      ({ s with resources := s.resources.set i (.res r (some now)) }, .ok ())

/-- The state `_createResourcePool` of `factory.ts` starts from:
no resources allocated. -/
def freshPool {T : Type} (eqf : T → T → Bool) (minCount : Nat)
    (maxCount : Option Nat) : ResourcePoolState T :=
  ⟨[], minCount, maxCount, eqf⟩

/-- Sequential `acquire()` calls, one per element of `creates` (the k-th
call sees the k-th create result when it reaches the creation step). -/
def acquireAll {T ε : Type} (s : ResourcePoolState T) :
    List (Except ε T) → ResourcePoolState T × List (Except (PoolError ε) T)
  | [] => (s, [])
  | c :: cs =>
      let out := acquire s c
      let rest := acquireAll out.state cs
      (rest.1, out.result :: rest.2)

/-- `RetryParameters` of `retry.ts`. -/
structure RetryParameters where
  waitBeforeRetryMs : Int
deriving DecidableEq, Repr

/-- `StaticRetryFunctionality = RetryParameters & { retryCount: number }`. -/
structure StaticRetryFunctionality where
  waitBeforeRetryMs : Int
  retryCount : Int
deriving DecidableEq, Repr

/-- `DynamicRetryFunctionalityArgs` of `retry.ts` (`attemptCount` is
1-based). -/
structure DynamicRetryFunctionalityArgs (ε : Type) where
  error : PoolError ε
  attemptCount : Nat

/-- `DynamicRetryFunctionality` of `retry.ts`: decide, from the error and
the 1-based attempt count, either to retry after a wait (`Sum.inl`) or to
fail immediately with the given error (`Sum.inr`, the callback returning
an `Error`). -/
def DynamicRetryFunctionality (ε : Type) : Type :=
  DynamicRetryFunctionalityArgs ε → Sum RetryParameters (PoolError ε)

/-- `RetryFunctionality = StaticRetryFunctionality | DynamicRetryFunctionality`. -/
inductive RetryFunctionality (ε : Type) where
  | static (s : StaticRetryFunctionality)
  | dynamic (d : DynamicRetryFunctionality ε)

/-- The callback built by `dynamicFromStatic` of `retry.ts` (named here for
proof convenience; the TypeScript code returns it as an inline closure
over `retryCount = Math.max(args.retryCount, 0)`): it retries (waiting
`waitBeforeRetryMs`) only on `ResourcePoolFullError` while
`attemptCount <= retryCount`, fails with
`NoMoreRetriesLeftError(attemptCount, error)` once `attemptCount` exceeds
`retryCount`, and returns any other error as-is. -/
def staticRetryCallback {ε : Type} (s : StaticRetryFunctionality) :
    DynamicRetryFunctionality ε := fun args =>
  if isResourcePoolFullError args.error then
    if max s.retryCount 0 < (args.attemptCount : Int) then
      .inr (.noMoreRetriesLeft args.attemptCount args.error)
    else
      .inl ⟨s.waitBeforeRetryMs⟩
  else .inr args.error

/-- `dynamicFromStatic` of `retry.ts`: a no-op (`none`) when
`max(retryCount, 0)` is zero; otherwise the retry callback above. -/
def dynamicFromStatic {ε : Type} (s : StaticRetryFunctionality) :
    Option (DynamicRetryFunctionality ε) :=
  if 0 < max s.retryCount 0 then some (staticRetryCallback s) else none

/-- The `DynamicRetryFunctionality` a `RetryFunctionality` is normalized to
inside `augmentWithRetry` (`getRetryInfo`). -/
def toDynamicRetry {ε : Type} : RetryFunctionality ε →
    Option (DynamicRetryFunctionality ε)
  | .dynamic d => some d
  | .static s => dynamicFromStatic s

/-- A pool handle as seen through `retry.ts`: either a plain pool whose
`acquire` behaviour is given by the settled result of its k-th invocation
(1-based), or a `PoolWithRetryFunctionality` wrapper carrying
`__originalPool` and the normalized retry callback. -/
inductive Pool (ε T : Type) where
  | base (acquireAt : Nat → Except (PoolError ε) T)
  | withRetry (originalPool : Pool ε T) (rf : DynamicRetryFunctionality ε)

/-- `getOriginalPool` of `retry.ts`. -/
def getOriginalPool {ε T : Type} : Pool ε T → Pool ε T
  | .withRetry originalPool _ => originalPool
  | p => p

/-- `poolIsWithRetryFunctionality` of `retry.ts`. -/
def poolIsWithRetryFunctionality {ε T : Type} : Pool ε T → Bool
  | .withRetry _ _ => true
  | _ => false

/-- `augmentWithRetry` of `retry.ts`: normalize the functionality; when it
is effective, wrap `getOriginalPool(pool)` (not `pool` itself) in a new
`PoolWithRetryFunctionality`; otherwise return the pool unchanged. -/
def augmentWithRetry {ε T : Type} (rf : RetryFunctionality ε)
    (pool : Pool ε T) : Pool ε T :=
  match toDynamicRetry rf with
  | some d => .withRetry (getOriginalPool pool) d
  | none => pool

/-- The `do`/`while` loop of `tryAcquire` of `retry.ts`, with
`acquireAt k` the settled result of the k-th invocation of the underlying
`acquire` and `fuel` a structural recursion bound (the loop itself has no
built-in bound; every theorem below holds for all sufficiently large
`fuel`).  Returns the final settled result together with the number of
underlying `acquire` invocations performed (the final `attemptCount`). -/
def tryAcquireLoop {ε T : Type} (acquireAt : Nat → Except (PoolError ε) T)
    (rf : DynamicRetryFunctionality ε) :
    Nat → Nat → Option (Except (PoolError ε) T × Nat)
  | _, 0 => none
  | attemptCount, fuel + 1 =>
      let ac := attemptCount + 1
      match acquireAt ac with
      | .ok r => some (.ok r, ac)
      | .error e =>
          match rf ⟨e, ac⟩ with
          | .inr err => some (.error err, ac)
          | .inl _ => tryAcquireLoop acquireAt rf ac fuel

/-- `tryAcquire` of `retry.ts` (entered with `attemptCount = 0`). -/
def tryAcquire {ε T : Type} (acquireAt : Nat → Except (PoolError ε) T)
    (rf : DynamicRetryFunctionality ε) (fuel : Nat) :
    Option (Except (PoolError ε) T × Nat) :=
  tryAcquireLoop acquireAt rf 0 fuel

/-- The underlying invocation-indexed `acquire` of a plain pool
(`__originalPool.acquire` captured by `PoolWithRetryFunctionality`); the
wrappers produced by `augmentWithRetry` always hold a plain pool here. -/
def acquireSeqOf {ε T : Type} : Pool ε T →
    Option (Nat → Except (PoolError ε) T)
  | .base acquireAt => some acquireAt
  | .withRetry _ _ => none

/-- One `acquire()` call of a pool handle: a plain pool performs its first
underlying invocation; a wrapped pool runs the `tryAcquire` loop over the
captured underlying `acquire`.  Returns the settled result and the total
number of underlying `acquire` invocations. -/
def runAcquire {ε T : Type} (p : Pool ε T) (fuel : Nat) :
    Option (Except (PoolError ε) T × Nat) :=
  match p with
  | .base acquireAt => some (acquireAt 1, 1)
  | .withRetry originalPool rf =>
      (acquireSeqOf originalPool).bind fun acquireAt =>
        tryAcquire acquireAt rf fuel

/-- The construction options of `factory.ts` that take part in the
`maxCount >= minCount` validation (`minCount` defaults to `0` via
`defaultOptions` when omitted). -/
structure ResourcePoolCreationOptions where
  minCount : Option Nat
  maxCount : Option Nat

/-- `_createResourcePool` of `factory.ts`, restricted to its synchronous
validation and state construction: throws (`Except.error`) when a defined
`maxCount` is smaller than the effective `minCount`, otherwise returns the
initial pool state with an empty resource array (the create operation is
only ever invoked later, from `acquire`). -/
def createPool {T : Type} (eqf : T → T → Bool)
    (o : ResourcePoolCreationOptions) :
    Except String (ResourcePoolState T) :=
  let minCount := o.minCount.getD 0
  if (match o.maxCount with
      | some m => decide (m < minCount)
      | none => false) then
    .error "The given maximum count was less than given min count."
  else
    .ok { resources := [], minCount := minCount, maxCount := o.maxCount,
          equality := eqf }

/-- `EvictionResult` of `api.types.ts`. -/
structure EvictionResult (ε : Type) where
  resourcesDeleted : Nat
  errors : List ε
deriving Repr

/-- `ResourceIdleTimeCustomization` of `api.types.ts`: either a duration
in milliseconds or a custom eviction predicate
(`(input: {returnedAt, now, resource}) => boolean`, applied here as
`f returnedAt now resource`). -/
inductive ResourceIdleTimeCustomization (T : Type) where
  | ms (idleTime : Int)
  | custom (f : Nat → Nat → T → Bool)

/-- The `shouldEvict` normalization at the top of `createRunEviction` of
`administration.ts`: a number becomes the predicate
`now - returnedAt >= resourceIdleTime`; a callback is used as-is. -/
def toShouldEvict {T : Type} : ResourceIdleTimeCustomization T →
    (Nat → Nat → T → Bool)
  | .ms idleTime => fun returnedAt now _ =>
      decide (idleTime ≤ (now : Int) - (returnedAt : Int))
  | .custom f => f

/-- The `A.reduceWithIndex` walk of `createRunEviction` of
`administration.ts` (its accumulator is `EvictReduceState`): visiting the
slots in index order (starting at `idx`), a slot at index `>= minCount`
holding an idle resource accepted by `shouldEvict` contributes its
resource to `toBeEvicted` (first component of the result) and is dropped
from the store; any other non-`null` slot is appended to `toBeRetained`
(second component); `null` slots are dropped as well, so the retained
array is compacted. -/
def evictReduce {T : Type} (minCount now : Nat)
    (shouldEvict : Nat → Nat → T → Bool) :
    Nat → List (PoolSlot T) → List T × List (PoolSlot T)
  | _, [] => ([], [])
  | idx, slot :: rest =>
      let tail := evictReduce minCount now shouldEvict (idx + 1) rest
      match slot with
      | .res r (some t) =>
          if minCount ≤ idx then
            if shouldEvict t now r then (r :: tail.1, tail.2)
            else (tail.1, .res r (some t) :: tail.2)
          else (tail.1, .res r (some t) :: tail.2)
      | .res r none => (tail.1, .res r none :: tail.2)
      | .reserved => (tail.1, .reserved :: tail.2)
      | .empty => tail

/-- `createRunEviction` of `administration.ts`: normalize the idle-time
specification (`shouldEvict`), snapshot `now`, walk the store
partitioning it into the evicted resources and the retained slots,
replace the store by the retained (compacted) array, invoke the destroy
operation once per evicted resource (its settled `TaskEither` result
given by `destroy`), and return `resourcesDeleted` = the number of
destroy results and `errors` = the `Left` results among them.  The
operation is a total function into its result type (eviction never
raises). -/
def runEviction {T ε : Type} (s : ResourcePoolState T)
    (resourceIdleTime : ResourceIdleTimeCustomization T) (now : Nat)
    (destroy : T → Except ε Unit) :
    ResourcePoolState T × EvictionResult ε :=
  let walked := evictReduce s.minCount now (toShouldEvict resourceIdleTime) 0
    s.resources
  let results := walked.1.map destroy
  ({ s with resources := walked.2 },
    ⟨results.length,
      results.filterMap fun r =>
        match r with
        | .ok _ => none
        | .error e => some e⟩)

/-- An always-PoolFull plain pool over `Unit` creation errors and `Nat`
resources, used to examine double decoration. -/
def alwaysFullPool : Pool Unit Nat := .base fun _ => .error .poolFull

/-- `alwaysFullPool` decorated once, with `{waitBeforeRetryMs: 10, retryCount: 1}`. -/
def onceDecorated : Pool Unit Nat :=
  augmentWithRetry (.static ⟨10, 1⟩) alwaysFullPool

/-- `onceDecorated` decorated again, with `{waitBeforeRetryMs: 0, retryCount: 2}`. -/
def twiceDecorated : Pool Unit Nat :=
  augmentWithRetry (.static ⟨0, 2⟩) onceDecorated

/-- The release-matching predicate of `createRelease`: the slot holds a
resource, the resource is currently in use, and it equals `x` under the
configured equality. -/
def slotMatchesRelease {T : Type} (eqf : T → T → Bool) (x : T) :
    PoolSlot T → Bool
  | .res r none => eqf r x
  | _ => false

/-- Every slot of the array holds an in-use resource. -/
def allInUse {T : Type} (l : List (PoolSlot T)) : Prop :=
  ∀ x ∈ l, ∃ r, x = PoolSlot.res r none

end ResourcePool

namespace ResourcePool

theorem findFirstIdle_cons_idle {T : Type} (r : T) (t : Nat)
    (rest : List (PoolSlot T)) :
    findFirstIdle (.res r (some t) :: rest) = some (0, r) := rfl

theorem findFirstIdle_cons_inuse {T : Type} (r : T)
    (rest : List (PoolSlot T)) :
    findFirstIdle (.res r none :: rest)
      = (findFirstIdle rest).map (fun p => (p.1 + 1, p.2)) := rfl

theorem findFirstIdle_cons_reserved {T : Type} (rest : List (PoolSlot T)) :
    findFirstIdle (.reserved :: rest)
      = (findFirstIdle rest).map (fun p => (p.1 + 1, p.2)) := rfl

theorem findFirstIdle_cons_empty {T : Type} (rest : List (PoolSlot T)) :
    findFirstIdle (.empty :: rest)
      = (findFirstIdle rest).map (fun p => (p.1 + 1, p.2)) := rfl

theorem findFirstIdle_eq_none_of_allInUse {T : Type}
    {l : List (PoolSlot T)} (h : allInUse l) : findFirstIdle l = none := by
  induction l with
  | nil => rfl
  | cons s rest ih =>
      obtain ⟨r, hr⟩ := h s (List.mem_cons_self s rest)
      subst hr
      simp only [findFirstIdle]
      rw [ih fun x hx => h x (List.mem_cons_of_mem _ hx)]
      rfl

theorem findFirstIndex_empty_eq_none_of_allInUse {T : Type}
    {l : List (PoolSlot T)} (h : allInUse l) :
    findFirstIndex slotIsEmpty l = none := by
  induction l with
  | nil => rfl
  | cons s rest ih =>
      obtain ⟨r, hr⟩ := h s (List.mem_cons_self s rest)
      subst hr
      simp only [findFirstIndex, slotIsEmpty]
      rw [ih fun x hx => h x (List.mem_cons_of_mem _ hx)]
      rfl

theorem count_eq_length_of_allInUse {T : Type} {l : List (PoolSlot T)}
    (h : allInUse l) : getCurrentResourceCount l = l.length := by
  induction l with
  | nil => rfl
  | cons s rest ih =>
      obtain ⟨r, hr⟩ := h s (List.mem_cons_self s rest)
      subst hr
      have ht := ih fun x hx => h x (List.mem_cons_of_mem _ hx)
      simp only [getCurrentResourceCount, List.countP_cons,
        List.length_cons] at ht ⊢
      rw [ht]
      rfl

theorem set_append_last {T : Type} (l : List (PoolSlot T))
    (a b : PoolSlot T) : (l ++ [a]).set l.length b = l ++ [b] := by
  induction l with
  | nil => rfl
  | cons s rest ih => simp [List.set, ih]

theorem set_getElem?_self {T : Type} (l : List (PoolSlot T)) (i : Nat)
    (a : PoolSlot T) (h : l[i]? = some a) : l.set i a = l := by
  induction l generalizing i with
  | nil => simp at h
  | cons s rest ih =>
      cases i with
      | zero => simp at h; simp [List.set, h]
      | succ k => simp at h; simp [List.set, ih k h]

theorem findFirstIndex_lt_length {T : Type} {p : PoolSlot T → Bool}
    {l : List (PoolSlot T)} {i : Nat} (h : findFirstIndex p l = some i) :
    i < l.length := by
  induction l generalizing i with
  | nil => simp [findFirstIndex] at h
  | cons s rest ih =>
      simp only [findFirstIndex] at h
      by_cases hp : p s
      · rw [if_pos hp] at h
        injection h with h
        subst h
        simp
      · rw [if_neg hp] at h
        obtain ⟨j, hj, hji⟩ := Option.map_eq_some'.mp h
        subst hji
        have := ih hj
        simp only [List.length_cons]
        omega

theorem findFirstIndex_spec {T : Type} {p : PoolSlot T → Bool}
    {l : List (PoolSlot T)} {i : Nat} (h : findFirstIndex p l = some i) :
    ∃ s, l[i]? = some s ∧ p s = true := by
  induction l generalizing i with
  | nil => simp [findFirstIndex] at h
  | cons s rest ih =>
      simp only [findFirstIndex] at h
      by_cases hp : p s
      · rw [if_pos hp] at h
        injection h with h
        subst h
        exact ⟨s, by simp, hp⟩
      · rw [if_neg hp] at h
        obtain ⟨j, hj, hji⟩ := Option.map_eq_some'.mp h
        subst hji
        obtain ⟨t, ht, hpt⟩ := ih hj
        exact ⟨t, by simpa using ht, hpt⟩

theorem findFirstIdle_set_of_none {T : Type} {l : List (PoolSlot T)}
    (h : findFirstIdle l = none) (i : Nat) (hi : i < l.length)
    (r : T) (t : Nat) :
    findFirstIdle (l.set i (.res r (some t))) = some (i, r) := by
  induction l generalizing i with
  | nil => simp at hi
  | cons s rest ih =>
      cases i with
      | zero => simp [List.set, findFirstIdle_cons_idle]
      | succ k =>
          have hk : k < rest.length := by
            simpa [Nat.succ_lt_succ_iff] using hi
          simp only [List.set_cons_succ]
          match s, h with
          | PoolSlot.res r2 none, h =>
              rw [findFirstIdle_cons_inuse] at h
              rw [findFirstIdle_cons_inuse,
                ih (Option.map_eq_none'.mp h) k hk]
              rfl
          | PoolSlot.reserved, h =>
              rw [findFirstIdle_cons_reserved] at h
              rw [findFirstIdle_cons_reserved,
                ih (Option.map_eq_none'.mp h) k hk]
              rfl
          | PoolSlot.empty, h =>
              rw [findFirstIdle_cons_empty] at h
              rw [findFirstIdle_cons_empty,
                ih (Option.map_eq_none'.mp h) k hk]
              rfl

theorem findFirstInUse_eq_some_of {T : Type} {eqf : T → T → Bool} {x : T}
    {l : List (PoolSlot T)} {i : Nat} {a : T}
    (hget : l[i]? = some (.res a none)) (heq : eqf a x = true)
    (hbefore : ∀ k, k < i → ∀ s, l[k]? = some s →
      slotMatchesRelease eqf x s = false) :
    findFirstInUse eqf x l = some (i, a) := by
  induction l generalizing i with
  | nil => simp at hget
  | cons s rest ih =>
      cases i with
      | zero =>
          simp at hget
          subst hget
          simp [findFirstInUse, heq]
      | succ k =>
          simp at hget
          have hrest : findFirstInUse eqf x rest = some (k, a) := by
            refine ih hget fun j hj t htj => ?_
            exact hbefore (j + 1) (by omega) t (by simpa using htj)
          have hs := hbefore 0 (by omega) s (by simp)
          match s, hs with
          | PoolSlot.res r2 none, hs =>
              simp only [slotMatchesRelease] at hs
              simp [findFirstInUse, hs, hrest]
          | PoolSlot.res r2 (some t2), _ =>
              simp [findFirstInUse, hrest]
          | PoolSlot.reserved, _ =>
              simp [findFirstInUse, hrest]
          | PoolSlot.empty, _ =>
              simp [findFirstInUse, hrest]

theorem findFirstInUse_eq_none_of {T : Type} {eqf : T → T → Bool} {x : T}
    {l : List (PoolSlot T)}
    (h : ∀ s ∈ l, slotMatchesRelease eqf x s = false) :
    findFirstInUse eqf x l = none := by
  induction l with
  | nil => rfl
  | cons s rest ih =>
      have hs := h s (List.mem_cons_self s rest)
      have hrest : findFirstInUse eqf x rest = none :=
        ih fun t ht => h t (List.mem_cons_of_mem _ ht)
      match s, hs with
      | PoolSlot.res r2 none, hs =>
          simp only [slotMatchesRelease] at hs
          simp [findFirstInUse, hs, hrest]
      | PoolSlot.res r2 (some t2), _ => simp [findFirstInUse, hrest]
      | PoolSlot.reserved, _ => simp [findFirstInUse, hrest]
      | PoolSlot.empty, _ => simp [findFirstInUse, hrest]

theorem slotIsEmpty_eq_true_iff {T : Type} (s : PoolSlot T) :
    slotIsEmpty s = true ↔ s = .empty := by
  cases s <;> simp [slotIsEmpty]

/-- Anatomy of the `needsCreate` case of `acquireSync`: what the
reservation did to the slot array. -/
theorem acquireSync_needsCreate_anatomy {T ε : Type}
    {s s1 : ResourcePoolState T} {idx : Nat}
    (h : acquireSync (ε := ε) s = .needsCreate s1 idx) :
    findFirstIdle s.resources = none ∧
    isRoomForResource s.maxCount s.resources = true ∧
    s1.minCount = s.minCount ∧ s1.maxCount = s.maxCount ∧
    s1.equality = s.equality ∧
    ((idx < s.resources.length ∧ s.resources[idx]? = some .empty ∧
        s1.resources = s.resources.set idx .reserved) ∨
      (idx = s.resources.length ∧
        s1.resources = s.resources ++ [.reserved])) := by
  unfold acquireSync at h
  cases hfind : findFirstIdle s.resources with
  | some p =>
      obtain ⟨i, r⟩ := p
      rw [hfind] at h
      exact AcquireSync.noConfusion h
  | none =>
      rw [hfind] at h
      by_cases hroom : isRoomForResource s.maxCount s.resources
      · rw [if_pos hroom] at h
        injection h with h1 h2
        cases hemp : findFirstIndex slotIsEmpty s.resources with
        | some j =>
            rw [hemp] at h1 h2
            simp only [Option.getD_some] at h1 h2
            subst h2
            refine ⟨rfl, hroom, by rw [← h1], by rw [← h1], by rw [← h1], ?_⟩
            left
            obtain ⟨slot, hslot, hps⟩ := findFirstIndex_spec hemp
            have hj := findFirstIndex_lt_length hemp
            refine ⟨hj, ?_, ?_⟩
            · rw [hslot, (slotIsEmpty_eq_true_iff slot).mp hps]
            · rw [← h1]
              simp [writeSlot, hj]
        | none =>
            rw [hemp] at h1 h2
            simp only [Option.getD_none] at h1 h2
            subst h2
            refine ⟨rfl, hroom, by rw [← h1], by rw [← h1], by rw [← h1], ?_⟩
            right
            refine ⟨rfl, ?_⟩
            rw [← h1]
            simp [writeSlot]
      · rw [if_neg hroom] at h
        exact AcquireSync.noConfusion h

/-- C9: whenever acquire fails with the PoolFull condition, the slot store
is left entirely unchanged (the whole state is returned as-is) and the
external create operation is never invoked: the capacity check precedes
the reservation mutation. -/
theorem acquire_poolFull_state_unchanged {T ε : Type}
    (s : ResourcePoolState T) (c : Except ε T)
    (h : (acquire s c).result = .error .poolFull) :
    (acquire s c).state = s ∧ (acquire s c).createInvoked = false := by
  cases hsync : acquireSync (ε := ε) s with
  | immediate s2 r =>
      have ha : acquire s c = ⟨s2, r, false⟩ := by
        unfold acquire
        rw [hsync]
      rw [ha] at h ⊢
      replace h : r = Except.error PoolError.poolFull := h
      subst h
      refine ⟨?_, rfl⟩
      show s2 = s
      unfold acquireSync at hsync
      cases hfind : findFirstIdle s.resources with
      | some p =>
          obtain ⟨i, r⟩ := p
          rw [hfind] at hsync
          injection hsync with h1 h2
          exact absurd h2.symm (by simp)
      | none =>
          rw [hfind] at hsync
          by_cases hroom : isRoomForResource s.maxCount s.resources
          · rw [if_pos hroom] at hsync
            exact AcquireSync.noConfusion hsync
          · rw [if_neg hroom] at hsync
            injection hsync with h1 h2
            exact h1.symm
  | needsCreate s1 idx =>
      have ha : acquire s c =
          ⟨(finishAcquire s1 idx c).1, (finishAcquire s1 idx c).2, true⟩ := by
        unfold acquire
        rw [hsync]
      rw [ha] at h
      replace h : (finishAcquire s1 idx c).2 = Except.error PoolError.poolFull :=
        h
      cases c with
      | ok r => simp [finishAcquire] at h
      | error e => simp [finishAcquire] at h

/-- C9 witness: on a full pool (one in-use resource, `maxCount = 1`) the
acquire fails with PoolFull, leaves the state untouched and does not
invoke create. -/
theorem acquire_poolFull_state_unchanged_witness :
    (acquire (T := Nat) (ε := Unit)
        ⟨[.res 5 none], 0, some 1, fun a b => a == b⟩ (.ok 7)).state
      = ⟨[.res 5 none], 0, some 1, fun a b => a == b⟩ ∧
    (acquire (T := Nat) (ε := Unit)
        ⟨[.res 5 none], 0, some 1, fun a b => a == b⟩ (.ok 7)).createInvoked
      = false :=
  acquire_poolFull_state_unchanged
    ⟨[.res 5 none], 0, some 1, fun a b => a == b⟩ (.ok 7) rfl

/-- C2: when the external create operation fails after a slot was reserved
at index `idx`, the engine resets exactly that slot to Empty in place
(same array length, every other slot untouched), returns the creation
error unchanged (never reclassified as PoolFull), and the current
resource count ends up equal to its value before the failed attempt. -/
theorem acquire_createFailure_resets_slot {T ε : Type}
    (s s1 : ResourcePoolState T) (idx : Nat) (e : ε)
    (h : acquireSync (ε := ε) s = .needsCreate s1 idx) :
    (acquire s (.error e)).state.resources = s1.resources.set idx .empty ∧
    (acquire s (.error e)).state.resources.length = s1.resources.length ∧
    (∀ j, j ≠ idx →
      (acquire s (.error e)).state.resources[j]? = s1.resources[j]?) ∧
    (acquire s (.error e)).state.resources[idx]? = some .empty ∧
    (acquire s (.error e)).result = .error (.creation e) ∧
    (acquire s (.error e)).createInvoked = true ∧
    getCurrentResourceCount (acquire s (.error e)).state.resources
      = getCurrentResourceCount s.resources := by
  obtain ⟨hfind, hroom, hmin, hmax, heqf, hcases⟩ :=
    acquireSync_needsCreate_anatomy h
  have hidxlt : idx < s1.resources.length := by
    rcases hcases with ⟨hlt, _, hset⟩ | ⟨hlen, happ⟩
    · rw [hset, List.length_set]; exact hlt
    · rw [happ, List.length_append]; simp [hlen]
  have hstate :
      acquire s (.error e) =
        ⟨{ s1 with resources := s1.resources.set idx .empty },
          .error (.creation e), true⟩ := by
    unfold acquire
    rw [h]
    simp only [finishAcquire, writeSlot, if_pos hidxlt]
  rw [hstate]
  refine ⟨rfl, List.length_set _ _ _, ?_, ?_, rfl, rfl, ?_⟩
  · intro j hj
    exact List.getElem?_set_ne (fun hh => hj hh.symm)
  · exact List.getElem?_set_eq_of_lt _ hidxlt
  · rcases hcases with ⟨hlt, hemp, hset⟩ | ⟨hlen, happ⟩
    · rw [hset, List.set_set, set_getElem?_self s.resources idx .empty hemp]
    · subst hlen
      rw [happ, set_append_last]
      simp only [getCurrentResourceCount, List.countP_append]
      simp [slotIsLive, List.countP_cons]

/-- C2 witness: fresh unbounded pool; the first acquire reserves index 0,
creation fails, the slot is reset to Empty and the count is back to 0. -/
theorem acquire_createFailure_resets_slot_witness :
    (acquire (T := Nat) (ε := Unit)
        (freshPool (fun a b => a == b) 0 none) (.error ())).state.resources
      = [.empty] ∧
    (acquire (T := Nat) (ε := Unit)
        (freshPool (fun a b => a == b) 0 none) (.error ())).result
      = .error (.creation ()) ∧
    getCurrentResourceCount
      (acquire (T := Nat) (ε := Unit)
        (freshPool (fun a b => a == b) 0 none) (.error ())).state.resources
      = 0 := by
  have h := acquire_createFailure_resets_slot (T := Nat) (ε := Unit)
    (freshPool (fun a b => a == b) 0 none)
    ⟨[.reserved], 0, none, fun a b => a == b⟩ 0 () rfl
  exact ⟨h.1, h.2.2.2.2.1, h.2.2.2.2.2.2⟩

/-- On a pool whose slots are all in use, with room left, an acquire whose
creation succeeds appends the new resource as in-use. -/
theorem acquire_ok_of_allInUse {T ε : Type} {s : ResourcePoolState T}
    {N : Nat} (hall : allInUse s.resources) (hmax : s.maxCount = some N)
    (hlt : s.resources.length < N) (c : T) :
    acquire (ε := ε) s (.ok c) =
      ⟨⟨s.resources ++ [.res c none], s.minCount, s.maxCount, s.equality⟩,
        .ok c, true⟩ := by
  have hidle := findFirstIdle_eq_none_of_allInUse hall
  have hempty := findFirstIndex_empty_eq_none_of_allInUse hall
  have hroom : isRoomForResource s.maxCount s.resources = true := by
    simp [isRoomForResource, hmax, hlt]
  have hsync : acquireSync (ε := ε) s =
      .needsCreate
        ⟨s.resources ++ [.reserved], s.minCount, s.maxCount, s.equality⟩
        s.resources.length := by
    unfold acquireSync
    rw [hidle, if_pos hroom, hempty]
    simp [writeSlot]
  unfold acquire
  rw [hsync]
  simp only [finishAcquire, writeSlot, List.length_append,
    List.length_cons, List.length_nil]
  rw [if_pos (by omega), set_append_last]

/-- On a pool whose slots are all in use and whose `maxCount` is reached,
any acquire fails with PoolFull and changes nothing. -/
theorem acquire_poolFull_of_allInUse_full {T ε : Type}
    {s : ResourcePoolState T} {N : Nat}
    (hall : allInUse s.resources) (hmax : s.maxCount = some N)
    (hlen : s.resources.length = N) (c : Except ε T) :
    acquire s c = ⟨s, .error .poolFull, false⟩ := by
  have hidle := findFirstIdle_eq_none_of_allInUse hall
  have hcount := count_eq_length_of_allInUse hall
  have hroom : isRoomForResource s.maxCount s.resources = false := by
    simp [isRoomForResource, hmax, hlen, hcount]
  unfold acquire acquireSync
  rw [hidle, if_neg (by simp [hroom])]

/-- Iterating acquire with successful creations on an all-in-use pool:
every call succeeds and every allocated slot stays in use. -/
theorem acquireAll_ok_of_allInUse {T ε : Type} (N : Nat) :
    ∀ (creates : List T) (s : ResourcePoolState T),
      allInUse s.resources → s.maxCount = some N →
      s.resources.length + creates.length ≤ N →
      allInUse (acquireAll (ε := ε) s (creates.map .ok)).1.resources ∧
      (acquireAll (ε := ε) s (creates.map .ok)).1.resources.length
        = s.resources.length + creates.length ∧
      (acquireAll (ε := ε) s (creates.map .ok)).1.maxCount = some N ∧
      ∀ r ∈ (acquireAll (ε := ε) s (creates.map .ok)).2, ∃ x, r = .ok x := by
  intro creates
  induction creates with
  | nil =>
      intro s hall hmax _
      simp only [List.map_nil, acquireAll]
      exact ⟨hall, by simp, hmax, by simp⟩
  | cons c cs ih =>
      intro s hall hmax hle
      simp only [List.length_cons] at hle
      simp only [List.map_cons, acquireAll,
        acquire_ok_of_allInUse hall hmax (by omega) c]
      have hall2 : allInUse (s.resources ++ [.res c none]) := by
        intro x hx
        rcases List.mem_append.mp hx with hx | hx
        · exact hall x hx
        · simp only [List.mem_singleton] at hx
          exact ⟨c, hx⟩
      have hrec := ih
        ⟨s.resources ++ [.res c none], s.minCount, s.maxCount, s.equality⟩
        hall2 hmax (by simp only [List.length_append]; simp; omega)
      refine ⟨hrec.1, ?_, hrec.2.2.1, ?_⟩
      · rw [hrec.2.1]
        simp only [List.length_append]
        simp
        omega
      · intro r hr
        simp only [List.mem_cons] at hr
        rcases hr with hr | hr
        · exact ⟨c, hr⟩
        · exact hrec.2.2.2 r hr

/-- C1: (general form) an acquire fails with the PoolFull condition
exactly when no idle slot exists, `maxCount` is defined, and the count of
non-Empty slots is at least `maxCount`; (scenario form) starting from a
fresh pool with `maxCount = N`, a sequence of `N` acquire calls with
successful creations and no releases all succeed, and the (N+1)-th
acquire fails with PoolFull. -/
theorem acquire_poolFull_iff {T ε : Type} :
    (∀ (s : ResourcePoolState T) (c : Except ε T),
      (acquire s c).result = .error .poolFull ↔
        findFirstIdle s.resources = none ∧
          ∃ m, s.maxCount = some m ∧
            m ≤ getCurrentResourceCount s.resources) ∧
    (∀ (eqf : T → T → Bool) (N : Nat) (creates : List T),
      creates.length = N →
      (∀ r ∈ (acquireAll (ε := ε) (freshPool eqf 0 (some N))
          (creates.map .ok)).2, ∃ x, r = .ok x) ∧
      ∀ c2 : Except ε T,
        (acquire (acquireAll (ε := ε) (freshPool eqf 0 (some N))
          (creates.map .ok)).1 c2).result = .error .poolFull) := by
  constructor
  · intro s c
    constructor
    · intro h
      cases hfind : findFirstIdle s.resources with
      | some p =>
          obtain ⟨i, r⟩ := p
          have ha : acquire s c =
              ⟨{ s with resources := s.resources.set i (.res r none) },
                .ok r, false⟩ := by
            unfold acquire acquireSync
            rw [hfind]
          rw [ha] at h
          exact absurd h (by simp)
      | none =>
          refine ⟨rfl, ?_⟩
          by_cases hroom : isRoomForResource s.maxCount s.resources
          · exfalso
            cases hsync : acquireSync (ε := ε) s with
            | immediate s2 r =>
                unfold acquireSync at hsync
                rw [hfind, if_pos hroom] at hsync
                exact AcquireSync.noConfusion hsync
            | needsCreate s1 idx =>
                have ha : acquire s c =
                    ⟨(finishAcquire s1 idx c).1, (finishAcquire s1 idx c).2,
                      true⟩ := by
                  unfold acquire
                  rw [hsync]
                rw [ha] at h
                replace h : (finishAcquire s1 idx c).2
                    = Except.error PoolError.poolFull := h
                cases c with
                | ok r => simp [finishAcquire] at h
                | error e => simp [finishAcquire] at h
          · cases hmax : s.maxCount with
            | none =>
                exfalso
                apply hroom
                unfold isRoomForResource
                rw [hmax]
            | some m =>
                refine ⟨m, rfl, ?_⟩
                unfold isRoomForResource at hroom
                rw [hmax] at hroom
                simp only [Bool.or_eq_true, decide_eq_true_eq,
                  not_or] at hroom
                omega
    · rintro ⟨hfind, m, hmax, hcount⟩
      have hlen : getCurrentResourceCount s.resources
          ≤ s.resources.length := List.countP_le_length _
      have hroom : ¬ (isRoomForResource s.maxCount s.resources = true) := by
        unfold isRoomForResource
        rw [hmax]
        simp only [Bool.or_eq_true, decide_eq_true_eq, not_or]
        omega
      have ha : acquire s c = ⟨s, .error .poolFull, false⟩ := by
        unfold acquire acquireSync
        rw [hfind, if_neg hroom]
      rw [ha]
  · intro eqf N creates hlen
    have hbase := acquireAll_ok_of_allInUse (T := T) (ε := ε) N creates
      (freshPool eqf 0 (some N)) (by intro x hx; simp [freshPool] at hx)
      rfl (by simp [freshPool, hlen])
    refine ⟨hbase.2.2.2, fun c2 => ?_⟩
    rw [acquire_poolFull_of_allInUse_full hbase.1 hbase.2.2.1
      (by rw [hbase.2.1]; simp [freshPool, hlen]) c2]

/-- C1 witness: `maxCount = 2`, two successful acquires, the third call
fails with PoolFull. -/
theorem acquire_poolFull_iff_witness :
    (acquire (ε := Unit) (acquireAll (ε := Unit)
        (freshPool (fun a b : Nat => a == b) 0 (some 2))
        ([10, 20].map .ok)).1 (.ok 30)).result = .error .poolFull :=
  ((acquire_poolFull_iff (T := Nat) (ε := Unit)).2
    (fun a b => a == b) 2 [10, 20] rfl).2 (.ok 30)

theorem findFirstInUse_cons_inuse {T : Type} (eqf : T → T → Bool) (x r : T)
    (rest : List (PoolSlot T)) :
    findFirstInUse eqf x (.res r none :: rest)
      = if eqf r x then some (0, r)
        else (findFirstInUse eqf x rest).map (fun p => (p.1 + 1, p.2)) := rfl

theorem findFirstInUse_cons_idle {T : Type} (eqf : T → T → Bool) (x r : T)
    (t : Nat) (rest : List (PoolSlot T)) :
    findFirstInUse eqf x (.res r (some t) :: rest)
      = (findFirstInUse eqf x rest).map (fun p => (p.1 + 1, p.2)) := rfl

theorem findFirstInUse_cons_reserved {T : Type} (eqf : T → T → Bool) (x : T)
    (rest : List (PoolSlot T)) :
    findFirstInUse eqf x (.reserved :: rest)
      = (findFirstInUse eqf x rest).map (fun p => (p.1 + 1, p.2)) := rfl

theorem findFirstInUse_cons_empty {T : Type} (eqf : T → T → Bool) (x : T)
    (rest : List (PoolSlot T)) :
    findFirstInUse eqf x (.empty :: rest)
      = (findFirstInUse eqf x rest).map (fun p => (p.1 + 1, p.2)) := rfl

theorem findFirstInUse_lt_length {T : Type} {eqf : T → T → Bool} {x : T}
    {l : List (PoolSlot T)} {i : Nat} {a : T}
    (h : findFirstInUse eqf x l = some (i, a)) : i < l.length := by
  induction l generalizing i a with
  | nil => simp [findFirstInUse] at h
  | cons s rest ih =>
      have step : ∀ {j : Nat} {b : T},
          (findFirstInUse eqf x rest).map (fun p => (p.1 + 1, p.2))
            = some (j, b) → j < (s :: rest).length := by
        intro j b hm
        obtain ⟨p, hp, hpe⟩ := Option.map_eq_some'.mp hm
        obtain ⟨p1, p2⟩ := p
        have := ih (i := p1) (a := p2) hp
        simp only [List.length_cons]
        injection hpe with hpe1 hpe2
        omega
      cases s with
      | res r rt =>
          cases rt with
          | none =>
              rw [findFirstInUse_cons_inuse] at h
              by_cases he : eqf r x
              · rw [if_pos he] at h
                injection h with h
                injection h with h1 h2
                rw [← h1]
                simp
              · rw [if_neg he] at h
                exact step h
          | some t =>
              rw [findFirstInUse_cons_idle] at h
              exact step h
      | reserved =>
          rw [findFirstInUse_cons_reserved] at h
          exact step h
      | empty =>
          rw [findFirstInUse_cons_empty] at h
          exact step h

/-- C8 counterexample: a pool with an idle resource `0` at index 0 and an
in-use resource `1` at index 1 (identity equality).  Releasing `1` and
immediately acquiring returns `0`, not the just-released `1`: acquire
hands out the first idle slot, not the released one. -/
theorem release_then_acquire_counterexample :
    (release (T := Nat) (ε := Unit)
        ⟨[.res 0 (some 5), .res 1 none], 0, none, fun a b => a == b⟩
        1 7).2 = .ok () ∧
    (acquire (T := Nat) (ε := Unit)
        (release (T := Nat) (ε := Unit)
          ⟨[.res 0 (some 5), .res 1 none], 0, none, fun a b => a == b⟩
          1 7).1 (.ok 99)).result = .ok 0 ∧
    (0 : Nat) ≠ 1 :=
  ⟨rfl, rfl, by decide⟩

/-- C8 (amended): when no idle slot exists before the release, releasing a
resource and immediately acquiring returns exactly the resource stored in
the slot the release just idled, and neither call invokes the external
create operation (release never invokes destroy by construction: it only
stamps `returnedAt`). -/
theorem release_then_acquire_same_resource {T ε : Type}
    (s : ResourcePoolState T) (x : T) (now : Nat) (c : Except ε T)
    (i : Nat) (r : T)
    (hnoidle : findFirstIdle s.resources = none)
    (hfound : findFirstInUse s.equality x s.resources = some (i, r)) :
    release (ε := ε) s x now
      = ({ s with resources := s.resources.set i (.res r (some now)) },
          .ok ()) ∧
    acquire (ε := ε)
        { s with resources := s.resources.set i (.res r (some now)) } c
      = ⟨{ s with resources := s.resources.set i (.res r none) },
          .ok r, false⟩ := by
  have hlt : i < s.resources.length := findFirstInUse_lt_length hfound
  constructor
  · unfold release
    rw [hfound]
  · have hidle2 := findFirstIdle_set_of_none hnoidle i hlt r now
    unfold acquire acquireSync
    simp only [hidle2, List.set_set]

/-- C8 witness: a single in-use resource, released then re-acquired:
the identical resource comes back with no creation involved. -/
theorem release_then_acquire_same_resource_witness :
    release (T := Nat) (ε := Unit)
        ⟨[.res 4 none], 0, none, fun a b => a == b⟩ 4 9
      = (⟨[.res 4 (some 9)], 0, none, fun a b => a == b⟩, .ok ()) ∧
    acquire (T := Nat) (ε := Unit)
        ⟨[.res 4 (some 9)], 0, none, fun a b => a == b⟩ (.ok 99)
      = ⟨⟨[.res 4 none], 0, none, fun a b => a == b⟩, .ok 4, false⟩ :=
  release_then_acquire_same_resource
    ⟨[.res 4 none], 0, none, fun a b => a == b⟩ 4 9 (.ok 99) 0 4 rfl rfl

/-- C10: release marks only the first (lowest-index) in-use slot whose
stored resource matches the argument under the configured equality: with
exactly two matching in-use slots at `i < j`, two consecutive releases
idle slots `i` then `j` (in increasing index order), and a third release
fails with NotPartOfPool, leaving the state unchanged. -/
theorem release_first_matching_slot {T ε : Type}
    (s : ResourcePoolState T) (x : T) (i j now1 now2 now3 : Nat) (a b : T)
    (hij : i < j)
    (hi : s.resources[i]? = some (.res a none))
    (hj : s.resources[j]? = some (.res b none))
    (hax : s.equality a x = true) (hbx : s.equality b x = true)
    (hothers : ∀ k t, s.resources[k]? = some t → k ≠ i → k ≠ j →
      slotMatchesRelease s.equality x t = false) :
    release (ε := ε) s x now1
      = ({ s with resources := s.resources.set i (.res a (some now1)) },
          .ok ()) ∧
    release (ε := ε)
        { s with resources := s.resources.set i (.res a (some now1)) } x now2
      = ({ s with resources := (s.resources.set i (PoolSlot.res a (some now1))).set j (PoolSlot.res b (some now2)) },
          .ok ()) ∧
    release (ε := ε)
        { s with resources := (s.resources.set i (PoolSlot.res a (some now1))).set j (PoolSlot.res b (some now2)) }
        x now3
      = ({ s with resources := (s.resources.set i (PoolSlot.res a (some now1))).set j (PoolSlot.res b (some now2)) },
          .error .notPartOfPool) := by
  have hilt : i < s.resources.length := by
    have := List.getElem?_eq_some.mp hi
    exact this.1
  have hjlt : j < s.resources.length := by
    have := List.getElem?_eq_some.mp hj
    exact this.1
  have hij' : i ≠ j := Nat.ne_of_lt hij
  have hfind1 : findFirstInUse s.equality x s.resources = some (i, a) := by
    refine findFirstInUse_eq_some_of hi hax fun k hk t htk => ?_
    exact hothers k t htk (by omega) (by omega)
  have hfind2 :
      findFirstInUse s.equality x
        (s.resources.set i (.res a (some now1))) = some (j, b) := by
    refine findFirstInUse_eq_some_of ?_ hbx fun k hk t htk => ?_
    · rw [List.getElem?_set_ne hij', hj]
    · by_cases hki : k = i
      · subst hki
        rw [List.getElem?_set_eq_of_lt _ hilt] at htk
        injection htk with htk
        rw [← htk]
        rfl
      · rw [List.getElem?_set_ne fun hh => hki hh.symm] at htk
        exact hothers k t htk hki (by omega)
  have hfind3 :
      findFirstInUse s.equality x
        ((s.resources.set i (.res a (some now1))).set j
          (.res b (some now2))) = none := by
    refine findFirstInUse_eq_none_of fun t ht => ?_
    obtain ⟨k, hk⟩ := List.mem_iff_getElem?.mp ht
    by_cases hkj : k = j
    · subst hkj
      rw [List.getElem?_set_eq_of_lt _ (by simpa using hjlt)] at hk
      injection hk with hk
      rw [← hk]
      rfl
    · rw [List.getElem?_set_ne fun hh => hkj hh.symm] at hk
      by_cases hki : k = i
      · subst hki
        rw [List.getElem?_set_eq_of_lt _ hilt] at hk
        injection hk with hk
        rw [← hk]
        rfl
      · rw [List.getElem?_set_ne fun hh => hki hh.symm] at hk
        exact hothers k t hk hki hkj
  refine ⟨?_, ?_, ?_⟩
  · unfold release
    rw [hfind1]
  · unfold release
    rw [hfind2]
  · unfold release
    rw [hfind3]

/-- C10 witness: equality-by-parity pool holding in-use resources 2 and 4,
both matching the released value 6: the first two releases idle slots 0
then 1, the third fails with NotPartOfPool. -/
theorem release_first_matching_slot_witness :
    release (T := Nat) (ε := Unit)
        ⟨[.res 2 none, .res 4 none], 0, none, fun u v => u % 2 == v % 2⟩
        6 100
      = (⟨[.res 2 (some 100), .res 4 none], 0, none,
          fun u v => u % 2 == v % 2⟩, .ok ()) ∧
    release (T := Nat) (ε := Unit)
        ⟨[.res 2 (some 100), .res 4 none], 0, none,
          fun u v => u % 2 == v % 2⟩ 6 200
      = (⟨[.res 2 (some 100), .res 4 (some 200)], 0, none,
          fun u v => u % 2 == v % 2⟩, .ok ()) ∧
    (release (T := Nat) (ε := Unit)
        ⟨[.res 2 (some 100), .res 4 (some 200)], 0, none,
          fun u v => u % 2 == v % 2⟩ 6 300).2
      = .error .notPartOfPool := by
  have h := release_first_matching_slot (ε := Unit)
    ⟨[.res 2 none, .res 4 none], 0, none, fun u v => u % 2 == v % 2⟩
    6 0 1 100 200 300 2 4 (by decide) rfl rfl rfl rfl
    (by
      intro k t hk h0 h1
      rw [List.getElem?_eq_none (by simp; omega)] at hk
      exact Option.noConfusion hk)
  exact ⟨h.1, h.2.1, congrArg Prod.snd h.2.2⟩

/-- C6: pool creation fails synchronously exactly when `maxCount` is
defined and smaller than the effective `minCount` (`minCount` defaulting
to 0 when omitted); on success the returned pool state holds no resources
at all (the create operation is only ever invoked later, from acquire). -/
theorem createPool_throws_iff {T : Type} (eqf : T → T → Bool)
    (o : ResourcePoolCreationOptions) :
    ((∃ err, createPool (T := T) eqf o = .error err) ↔
      ∃ m, o.maxCount = some m ∧ m < o.minCount.getD 0) ∧
    ∀ s, createPool (T := T) eqf o = .ok s → s.resources = [] := by
  cases hmax : o.maxCount with
  | none =>
      have hok : createPool (T := T) eqf o =
          .ok { resources := [], minCount := o.minCount.getD 0,
                maxCount := o.maxCount, equality := eqf } := by
        unfold createPool
        rw [hmax]
        rfl
      constructor
      · constructor
        · rintro ⟨err, herr⟩
          rw [hok] at herr
          exact Except.noConfusion herr
        · rintro ⟨m, hm, _⟩
          exact Option.noConfusion hm
      · intro s hs
        rw [hok] at hs
        injection hs with hs
        rw [← hs]
  | some m =>
      by_cases hlt : m < o.minCount.getD 0
      · have herr : createPool (T := T) eqf o =
            .error "The given maximum count was less than given min count." := by
          unfold createPool
          rw [hmax]
          rw [if_pos (by simpa using hlt)]
        constructor
        · constructor
          · intro _
            exact ⟨m, rfl, hlt⟩
          · intro _
            exact ⟨_, herr⟩
        · intro s hs
          rw [herr] at hs
          exact Except.noConfusion hs
      · have hok : createPool (T := T) eqf o =
            .ok { resources := [], minCount := o.minCount.getD 0,
                  maxCount := o.maxCount, equality := eqf } := by
          unfold createPool
          rw [hmax]
          rw [if_neg (by simpa using hlt)]
        constructor
        · constructor
          · rintro ⟨err, herr⟩
            rw [hok] at herr
            exact Except.noConfusion herr
          · rintro ⟨m2, hm2, hlt2⟩
            injection hm2 with hm2
            exact absurd (hm2 ▸ hlt2) hlt
        · intro s hs
          rw [hok] at hs
          injection hs with hs
          rw [← hs]

/-- C6 witness: `{minCount: 1, maxCount: 0}` is rejected synchronously;
`{minCount: 0, maxCount: 2}` is accepted with an empty resource array. -/
theorem createPool_throws_iff_witness :
    (∃ err, createPool (T := Nat) (fun a b => a == b) ⟨some 1, some 0⟩
      = .error err) ∧
    (⟨[], 0, some 2, fun a b => a == b⟩ : ResourcePoolState Nat).resources
      = [] :=
  ⟨(createPool_throws_iff (fun a b => a == b) ⟨some 1, some 0⟩).1.mpr
      ⟨0, rfl, by decide⟩,
    (createPool_throws_iff (fun a b => a == b) ⟨some 0, some 2⟩).2
      ⟨[], 0, some 2, fun a b => a == b⟩ rfl⟩

/-- One unfolding step of the retry loop. -/
theorem tryAcquireLoop_succ {ε T : Type}
    (acquireAt : Nat → Except (PoolError ε) T)
    (rf : DynamicRetryFunctionality ε) (att f : Nat) :
    tryAcquireLoop acquireAt rf att (f + 1)
      = match acquireAt (att + 1) with
        | .ok r => some (.ok r, att + 1)
        | .error e =>
            match rf ⟨e, att + 1⟩ with
            | .inr err => some (.error err, att + 1)
            | .inl _ => tryAcquireLoop acquireAt rf (att + 1) f := rfl

theorem staticRetryCallback_poolFull_le {ε : Type}
    (s : StaticRetryFunctionality) (k : Nat)
    (hk : (k : Int) ≤ max s.retryCount 0) :
    staticRetryCallback (ε := ε) s ⟨.poolFull, k⟩
      = .inl ⟨s.waitBeforeRetryMs⟩ := by
  unfold staticRetryCallback
  dsimp only
  rw [if_pos (show isResourcePoolFullError (ε := ε) PoolError.poolFull = true
    from rfl)]
  rw [if_neg (not_lt.mpr hk)]

theorem staticRetryCallback_poolFull_gt {ε : Type}
    (s : StaticRetryFunctionality) (k : Nat)
    (hk : max s.retryCount 0 < (k : Int)) :
    staticRetryCallback (ε := ε) s ⟨.poolFull, k⟩
      = .inr (.noMoreRetriesLeft k .poolFull) := by
  unfold staticRetryCallback
  dsimp only
  rw [if_pos (show isResourcePoolFullError (ε := ε) PoolError.poolFull = true
    from rfl)]
  rw [if_pos hk]

theorem staticRetryCallback_other {ε : Type}
    (s : StaticRetryFunctionality) (e : PoolError ε) (k : Nat)
    (he : isResourcePoolFullError e = false) :
    staticRetryCallback (ε := ε) s ⟨e, k⟩ = .inr e := by
  unfold staticRetryCallback
  dsimp only
  rw [he]
  rfl

/-- C3: wrapping an always-PoolFull pool with the static policy
`{retryCount: 2, waitBeforeRetryMs: 0}` makes acquire fail with the
NoMoreRetriesLeft condition after exactly 3 invocations of the underlying
acquire (1 initial + 2 retries); the error carries `attemptCount = 3` and
the last underlying error (PoolFull) as its cause. -/
theorem retry_static_exhausts_after_three {ε T : Type}
    (acq : Nat → Except (PoolError ε) T)
    (hacq : ∀ k, acq k = .error .poolFull) (fuel : Nat) (hfuel : 3 ≤ fuel) :
    runAcquire (augmentWithRetry (.static ⟨0, 2⟩) (.base acq)) fuel
      = some (.error (.noMoreRetriesLeft 3 .poolFull), 3) := by
  obtain ⟨f, rfl⟩ : ∃ f, fuel = f + 1 + 1 + 1 := ⟨fuel - 3, by omega⟩
  have h0 : runAcquire
        (augmentWithRetry (.static ⟨0, 2⟩) (.base acq)) (f + 1 + 1 + 1)
      = tryAcquireLoop acq (staticRetryCallback ⟨0, 2⟩) 0 (f + 1 + 1 + 1) :=
    rfl
  rw [h0, tryAcquireLoop_succ, hacq (0 + 1)]
  dsimp only
  rw [staticRetryCallback_poolFull_le _ (0 + 1) (by decide)]
  dsimp only
  rw [tryAcquireLoop_succ, hacq (0 + 1 + 1)]
  dsimp only
  rw [staticRetryCallback_poolFull_le _ (0 + 1 + 1) (by decide)]
  dsimp only
  rw [tryAcquireLoop_succ, hacq (0 + 1 + 1 + 1)]
  dsimp only
  rw [staticRetryCallback_poolFull_gt _ (0 + 1 + 1 + 1) (by decide)]

/-- C3 witness: the concrete always-PoolFull pool at fuel 3. -/
theorem retry_static_exhausts_after_three_witness :
    runAcquire (ε := Unit) (T := Nat)
        (augmentWithRetry (.static ⟨0, 2⟩) (.base fun _ => .error .poolFull)) 3
      = some (.error (.noMoreRetriesLeft 3 .poolFull), 3) :=
  retry_static_exhausts_after_three (fun _ => .error .poolFull)
    (fun _ => rfl) 3 (by decide)

/-- C4: under any effective static policy (`retryCount > 0`), an acquire
failure that is not the PoolFull condition is returned unchanged after
exactly one invocation of the underlying acquire — zero retries. -/
theorem retry_nonPoolFull_not_retried {ε T : Type}
    (acq : Nat → Except (PoolError ε) T) (e : PoolError ε)
    (srf : StaticRetryFunctionality) (hc : 0 < srf.retryCount)
    (hacq1 : acq 1 = .error e) (he : isResourcePoolFullError e = false)
    (fuel : Nat) (hfuel : 1 ≤ fuel) :
    runAcquire (augmentWithRetry (.static srf) (.base acq)) fuel
      = some (.error e, 1) := by
  obtain ⟨f, rfl⟩ : ∃ f, fuel = f + 1 := ⟨fuel - 1, by omega⟩
  have hd : dynamicFromStatic (ε := ε) srf = some (staticRetryCallback srf) := by
    unfold dynamicFromStatic
    rw [if_pos (by omega)]
  have h0 : runAcquire (augmentWithRetry (.static srf) (.base acq)) (f + 1)
      = tryAcquireLoop acq (staticRetryCallback srf) 0 (f + 1) := by
    show runAcquire
        (match toDynamicRetry (ε := ε) (.static srf) with
          | some d => Pool.withRetry (getOriginalPool (Pool.base acq)) d
          | none => Pool.base acq) (f + 1) = _
    show runAcquire
        (match dynamicFromStatic (ε := ε) srf with
          | some d => Pool.withRetry (getOriginalPool (Pool.base acq)) d
          | none => Pool.base acq) (f + 1) = _
    rw [hd]
    rfl
  rw [h0, tryAcquireLoop_succ]
  have h1 : acq (0 + 1) = .error e := hacq1
  rw [h1]
  dsimp only
  rw [staticRetryCallback_other srf e (0 + 1) he]

/-- C4 witness: a pool whose first acquire fails with a creation error,
wrapped with `{retryCount: 2, waitBeforeRetryMs: 0}`: the same error comes
back after one attempt. -/
theorem retry_nonPoolFull_not_retried_witness :
    runAcquire (ε := Unit) (T := Nat)
        (augmentWithRetry (.static ⟨0, 2⟩)
          (.base fun _ => .error (.creation ()))) 1
      = some (.error (.creation ()), 1) :=
  retry_nonPoolFull_not_retried (fun _ => .error (.creation ()))
    (.creation ()) ⟨0, 2⟩ (by decide) rfl rfl 1 (by decide)

/-- C7 counterexample: decorating an already-decorated pool does not
re-wrap the existing decoration — it replaces it.  With an always-PoolFull
base pool, first policy `{retryCount: 1}` and second policy
`{retryCount: 2}`: the doubly-decorated pool's original pool is the bare
base pool, not the singly-decorated pool, and its acquire performs
exactly 3 underlying invocations — the behaviour of the second policy
alone, identical to decorating the base pool once, instead of a
multiplicative composition of the two policies' attempts. -/
theorem augmentWithRetry_counterexample :
    poolIsWithRetryFunctionality onceDecorated = true ∧
    getOriginalPool twiceDecorated = alwaysFullPool ∧
    getOriginalPool twiceDecorated ≠ onceDecorated ∧
    runAcquire twiceDecorated 6
      = some (.error (.noMoreRetriesLeft 3 .poolFull), 3) ∧
    runAcquire twiceDecorated 6
      = runAcquire (augmentWithRetry (.static ⟨0, 2⟩) alwaysFullPool) 6 :=
  ⟨rfl, rfl, fun h => Pool.noConfusion h, rfl, rfl⟩

/-- C7 (amended): applying an effective retry decoration to an
already-decorated pool replaces the previous decoration: the result is
identical to decorating the undecorated pool with the new policy alone,
and unwrapping still reaches the original pool. -/
theorem augmentWithRetry_replaces {ε T : Type}
    (rf1 rf2 : RetryFunctionality ε) (p : Pool ε T)
    (d2 : DynamicRetryFunctionality ε) (h2 : toDynamicRetry rf2 = some d2) :
    augmentWithRetry rf2 (augmentWithRetry rf1 p) = augmentWithRetry rf2 p ∧
    getOriginalPool (augmentWithRetry rf2 (augmentWithRetry rf1 p))
      = getOriginalPool p := by
  have hwr : ∀ (q : Pool ε T) (d : DynamicRetryFunctionality ε),
      getOriginalPool (Pool.withRetry q d) = q := fun _ _ => rfl
  have e2 : ∀ q : Pool ε T,
      augmentWithRetry rf2 q = .withRetry (getOriginalPool q) d2 := by
    intro q
    unfold augmentWithRetry
    rw [h2]
  cases h1 : toDynamicRetry rf1 with
  | none =>
      have e1 : augmentWithRetry rf1 p = p := by
        unfold augmentWithRetry
        rw [h1]
      rw [e1, e2, hwr]
      exact ⟨rfl, rfl⟩
  | some d1 =>
      have e1 : augmentWithRetry rf1 p = .withRetry (getOriginalPool p) d1 := by
        unfold augmentWithRetry
        rw [h1]
      rw [e1, e2, e2, hwr, hwr]
      exact ⟨rfl, rfl⟩

/-- C7 amended witness: concrete double decoration collapses to the second
decoration of the original pool. -/
theorem augmentWithRetry_replaces_witness :
    augmentWithRetry (.static ⟨0, 2⟩)
        (augmentWithRetry (.static ⟨10, 1⟩) alwaysFullPool)
      = augmentWithRetry (.static ⟨0, 2⟩) alwaysFullPool ∧
    getOriginalPool
        (augmentWithRetry (.static ⟨0, 2⟩)
          (augmentWithRetry (.static ⟨10, 1⟩) alwaysFullPool))
      = getOriginalPool alwaysFullPool :=
  augmentWithRetry_replaces (.static ⟨10, 1⟩) (.static ⟨0, 2⟩)
    alwaysFullPool (staticRetryCallback ⟨0, 2⟩) rfl

theorem getCurrentResourceCount_cons {T : Type} (slot : PoolSlot T)
    (l : List (PoolSlot T)) :
    getCurrentResourceCount (slot :: l)
      = getCurrentResourceCount l + (if slotIsLive slot = true then 1 else 0) :=
  List.countP_cons _ _ _

theorem getCurrentResourceCount_cons_live {T : Type} (slot : PoolSlot T)
    (l : List (PoolSlot T)) (hs : slotIsLive slot = true) :
    getCurrentResourceCount (slot :: l) = getCurrentResourceCount l + 1 := by
  rw [getCurrentResourceCount_cons, hs]
  simp

theorem getCurrentResourceCount_cons_dead {T : Type} (slot : PoolSlot T)
    (l : List (PoolSlot T)) (hs : slotIsLive slot = false) :
    getCurrentResourceCount (slot :: l) = getCurrentResourceCount l := by
  rw [getCurrentResourceCount_cons, hs]
  simp

theorem evictReduce_nil {T : Type} (mc now : Nat)
    (se : Nat → Nat → T → Bool) (idx : Nat) :
    evictReduce mc now se idx ([] : List (PoolSlot T)) = ([], []) := rfl

theorem evictReduce_cons_idleSlot {T : Type} (mc now : Nat)
    (se : Nat → Nat → T → Bool) (idx : Nat) (r : T) (t : Nat)
    (rest : List (PoolSlot T)) :
    evictReduce mc now se idx (.res r (some t) :: rest)
      = if mc ≤ idx then
          (if se t now r then
            (r :: (evictReduce mc now se (idx + 1) rest).1,
              (evictReduce mc now se (idx + 1) rest).2)
          else
            ((evictReduce mc now se (idx + 1) rest).1,
              .res r (some t) :: (evictReduce mc now se (idx + 1) rest).2))
        else
          ((evictReduce mc now se (idx + 1) rest).1,
            .res r (some t) :: (evictReduce mc now se (idx + 1) rest).2) := rfl

theorem evictReduce_cons_inUse {T : Type} (mc now : Nat)
    (se : Nat → Nat → T → Bool) (idx : Nat) (r : T)
    (rest : List (PoolSlot T)) :
    evictReduce mc now se idx (.res r none :: rest)
      = ((evictReduce mc now se (idx + 1) rest).1,
          .res r none :: (evictReduce mc now se (idx + 1) rest).2) := rfl

theorem evictReduce_cons_reserved {T : Type} (mc now : Nat)
    (se : Nat → Nat → T → Bool) (idx : Nat) (rest : List (PoolSlot T)) :
    evictReduce mc now se idx (.reserved :: rest)
      = ((evictReduce mc now se (idx + 1) rest).1,
          .reserved :: (evictReduce mc now se (idx + 1) rest).2) := rfl

theorem evictReduce_cons_emptySlot {T : Type} (mc now : Nat)
    (se : Nat → Nat → T → Bool) (idx : Nat) (rest : List (PoolSlot T)) :
    evictReduce mc now se idx (.empty :: rest)
      = evictReduce mc now se (idx + 1) rest := rfl

/-- The eviction walk partitions the live slots: the current resource
count of the input array is the number of evicted resources plus the
current resource count of the retained array, and every retained slot is
live, so the retained count is the retained length. -/
theorem evictReduce_count {T : Type} (mc now : Nat)
    (se : Nat → Nat → T → Bool) :
    ∀ (l : List (PoolSlot T)) (idx : Nat),
      getCurrentResourceCount l
        = (evictReduce mc now se idx l).1.length
          + getCurrentResourceCount (evictReduce mc now se idx l).2 ∧
      getCurrentResourceCount (evictReduce mc now se idx l).2
        = (evictReduce mc now se idx l).2.length := by
  intro l
  induction l with
  | nil =>
      intro idx
      rw [evictReduce_nil]
      exact ⟨rfl, rfl⟩
  | cons slot rest ih =>
      intro idx
      obtain ⟨ihc, ihr⟩ := ih (idx + 1)
      cases slot with
      | res r rt =>
          cases rt with
          | some t =>
              rw [evictReduce_cons_idleSlot]
              by_cases h1 : mc ≤ idx
              · rw [if_pos h1]
                by_cases h2 : se t now r
                · rw [if_pos h2]
                  dsimp only
                  rw [getCurrentResourceCount_cons_live
                    (PoolSlot.res r (some t)) rest rfl, List.length_cons]
                  exact ⟨by omega, ihr⟩
                · rw [if_neg h2]
                  dsimp only
                  rw [getCurrentResourceCount_cons_live
                      (PoolSlot.res r (some t)) rest rfl,
                    getCurrentResourceCount_cons_live
                      (PoolSlot.res r (some t)) _ rfl, List.length_cons]
                  exact ⟨by omega, by omega⟩
              · rw [if_neg h1]
                dsimp only
                rw [getCurrentResourceCount_cons_live
                    (PoolSlot.res r (some t)) rest rfl,
                  getCurrentResourceCount_cons_live
                    (PoolSlot.res r (some t)) _ rfl, List.length_cons]
                exact ⟨by omega, by omega⟩
          | none =>
              rw [evictReduce_cons_inUse]
              dsimp only
              rw [getCurrentResourceCount_cons_live
                  (PoolSlot.res r none) rest rfl,
                getCurrentResourceCount_cons_live
                  (PoolSlot.res r none) _ rfl, List.length_cons]
              exact ⟨by omega, by omega⟩
      | reserved =>
          rw [evictReduce_cons_reserved]
          dsimp only
          rw [getCurrentResourceCount_cons_live
              (PoolSlot.reserved (T := T)) rest rfl,
            getCurrentResourceCount_cons_live
              (PoolSlot.reserved (T := T)) _ rfl, List.length_cons]
          exact ⟨by omega, by omega⟩
      | empty =>
          rw [evictReduce_cons_emptySlot,
            getCurrentResourceCount_cons_dead
              (PoolSlot.empty (T := T)) rest rfl]
          exact ⟨ihc, ihr⟩

theorem length_filterMap_of_all_some {α β : Type} (g : α → Option β) :
    ∀ l : List α, (∀ x ∈ l, ∃ y, g x = some y) →
      (l.filterMap g).length = l.length := by
  intro l
  induction l with
  | nil => intro _; rfl
  | cons a rest ih =>
      intro h
      obtain ⟨y, hy⟩ := h a (List.mem_cons_self a rest)
      rw [List.filterMap_cons_some hy]
      simp only [List.length_cons]
      rw [ih fun x hx => h x (List.mem_cons_of_mem _ hx)]

/-- C5: an eviction run attempts the destroy operation for every selected
resource and never raises (the model is a total function into the
structured `EvictionResult`): `resourcesDeleted` equals the number of
selected resources, `errors` is exactly the list of destroy failures of
the selected resources in order (even when every destroy fails, so all of
them get one entry), and all selected slots are removed from the store —
a subsequent `getCurrentResourceCount` reflects them as removed, dropping
by exactly `resourcesDeleted`. -/
theorem runEviction_survives_destroy_errors {T ε : Type}
    (s : ResourcePoolState T) (idleSpec : ResourceIdleTimeCustomization T)
    (now : Nat) (destroy : T → Except ε Unit) :
    (runEviction s idleSpec now destroy).2.resourcesDeleted
      = (evictReduce s.minCount now (toShouldEvict idleSpec) 0
          s.resources).1.length ∧
    (runEviction s idleSpec now destroy).2.errors
      = (evictReduce s.minCount now (toShouldEvict idleSpec) 0
          s.resources).1.filterMap (fun r =>
            match destroy r with
            | .ok _ => none
            | .error e => some e) ∧
    getCurrentResourceCount (runEviction s idleSpec now destroy).1.resources
      = getCurrentResourceCount s.resources
        - (runEviction s idleSpec now destroy).2.resourcesDeleted ∧
    (runEviction s idleSpec now destroy).2.resourcesDeleted
      ≤ getCurrentResourceCount s.resources ∧
    (runEviction s idleSpec now destroy).2.errors.length
      ≤ (runEviction s idleSpec now destroy).2.resourcesDeleted ∧
    ((∀ x, ∃ er, destroy x = .error er) →
      (runEviction s idleSpec now destroy).2.errors.length
        = (runEviction s idleSpec now destroy).2.resourcesDeleted) := by
  have hc := evictReduce_count s.minCount now (toShouldEvict idleSpec)
    s.resources 0
  have e1 : (runEviction s idleSpec now destroy).1.resources
      = (evictReduce s.minCount now (toShouldEvict idleSpec) 0
          s.resources).2 := rfl
  have e2 : (runEviction s idleSpec now destroy).2.resourcesDeleted
      = ((evictReduce s.minCount now (toShouldEvict idleSpec) 0
          s.resources).1.map destroy).length := rfl
  have e3 : (runEviction s idleSpec now destroy).2.errors
      = ((evictReduce s.minCount now (toShouldEvict idleSpec) 0
          s.resources).1.map destroy).filterMap (fun r =>
            match r with
            | .ok _ => none
            | .error e => some e) := rfl
  have hdel : (runEviction s idleSpec now destroy).2.resourcesDeleted
      = (evictReduce s.minCount now (toShouldEvict idleSpec) 0
          s.resources).1.length := by
    rw [e2, List.length_map]
  refine ⟨hdel, ?_, ?_, ?_, ?_, ?_⟩
  · rw [e3, List.filterMap_map]
    rfl
  · rw [e1, hdel]
    omega
  · rw [hdel]
    omega
  · rw [e3, e2]
    exact List.length_filterMap_le _ _
  · intro hall
    rw [e3, e2]
    apply length_filterMap_of_all_some
    intro x hx
    obtain ⟨y, _, hy⟩ := List.mem_map.mp hx
    obtain ⟨er, her⟩ := hall y
    rw [← hy, her]
    exact ⟨er, rfl⟩

/-- C5 witness: two idle resources, `runEviction(0)` semantics
(`idleTime = 0` milliseconds) and a destroy that always fails: both
resources are selected and removed, two errors are collected, and the
current resource count drops to 0. -/
theorem runEviction_survives_destroy_errors_witness :
    (runEviction (T := Nat) (ε := Unit)
        ⟨[.res 1 (some 0), .res 2 (some 0)], 0, none, fun a b => a == b⟩
        (.ms 0) 5 (fun _ => .error ())).2.resourcesDeleted = 2 ∧
    (runEviction (T := Nat) (ε := Unit)
        ⟨[.res 1 (some 0), .res 2 (some 0)], 0, none, fun a b => a == b⟩
        (.ms 0) 5 (fun _ => .error ())).2.errors.length = 2 ∧
    getCurrentResourceCount
      (runEviction (T := Nat) (ε := Unit)
        ⟨[.res 1 (some 0), .res 2 (some 0)], 0, none, fun a b => a == b⟩
        (.ms 0) 5 (fun _ => .error ())).1.resources = 0 := by
  have h := runEviction_survives_destroy_errors (ε := Unit)
    ⟨[.res 1 (some 0), .res 2 (some 0)], 0, none, fun a b => a == b⟩
    (.ms 0) 5 (fun _ => .error ())
  refine ⟨?_, ?_, ?_⟩
  · rfl
  · rw [h.2.2.2.2.2 fun x => ⟨(), rfl⟩]
    rfl
  · rw [h.2.2.1]
    rfl

end ResourcePool

namespace ResourcePool

-- sanity checks (concrete evaluation of the embedding)
example :
    (acquire (T := Nat) (ε := Unit) (freshPool (fun a b => a == b) 0 (some 1))
      (.ok 7)).result = .ok 7 := rfl

example :
    (acquire (T := Nat) (ε := Unit)
      ⟨[.res 5 none], 0, some 1, fun a b => a == b⟩ (.ok 7)).result
      = .error .poolFull := rfl

example :
    (release (T := Nat) (ε := Unit)
      ⟨[.res 5 none], 0, some 1, fun a b => a == b⟩ 5 42).2 = .ok () := rfl

-- retry: 2 retries over an always-full pool gives up after 3 attempts
example :
    runAcquire (ε := Unit) (T := Nat)
      (augmentWithRetry (.static ⟨0, 2⟩) (.base fun _ => .error .poolFull)) 5
      = some (.error (.noMoreRetriesLeft 3 .poolFull), 3) := rfl

-- retry: a non-PoolFull error propagates unchanged after one attempt
example :
    runAcquire (ε := Unit) (T := Nat)
      (augmentWithRetry (.static ⟨0, 2⟩) (.base fun _ => .error (.creation ())))
      5 = some (.error (.creation ()), 1) := rfl

-- factory: maxCount < minCount is rejected synchronously
example :
    (createPool (T := Nat) (fun a b => a == b) ⟨some 1, some 0⟩).isOk
      = false := rfl

-- eviction: both idle resources selected even though destroy always
-- fails, and the store is compacted to the empty array
example :
    (runEviction (T := Nat) (ε := Unit)
      ⟨[.res 1 (some 0), .res 2 (some 0)], 0, none, fun a b => a == b⟩
      (.custom fun _ _ _ => true) 5
      (fun _ => .error ())).2.resourcesDeleted = 2 := rfl

example :
    (runEviction (T := Nat) (ε := Unit)
      ⟨[.res 1 (some 0), .res 2 (some 0)], 0, none, fun a b => a == b⟩
      (.ms 0) 5 (fun _ => .error ())).1.resources = [] := rfl

-- eviction: a null (Empty) slot is dropped from the store even when
-- nothing is evicted, and an in-use resource is retained
example :
    (runEviction (T := Nat) (ε := Unit)
      ⟨[.empty, .res 7 none], 0, none, fun a b => a == b⟩
      (.ms 0) 5 (fun _ => .error ())).1.resources = [.res 7 none] := rfl

end ResourcePool
